import Mathlib

/-!
# Verification of the rosflight_ros_pkgs protocol bridge

A shallow embedding of the rosflight_io protocol bridge (the MAVLink <-> ROS
bridge of `rosflight_io/include/rosflight_io/rosflight_io.hpp` and its
companion implementation) together with proofs of the specified properties:
codec round-trip, handshake-scheduler behaviour, status-diff idempotence,
parameter-table contracts, named-topic registry invariants, and the
`saturate` helper.

The repository snapshot ships only the headers; where a claim turns on
implementation code that is not present (the codec, the timer callbacks, the
parameter manager, the dispatcher bodies), the corresponding definition is
modelled from the specification, as marked in its doc comment.  `saturate`
and the three period constants are taken directly from
`rosflight_io.hpp`.
-/

namespace Rosflight

/-! ## The saturate helper (rosflight_io.hpp, lines 590-593)

Source: `return value < min ? min : (value > max ? max : value);` -/

/-- The `saturate` template of `ROSflightIO` (rosflight_io.hpp:590-593),
clamping `value` into `[lo, hi]`.  The C++ template is instantiated at
ordered scalar types; we embed it generically over a linear order. -/
def saturate {α : Type} [LinearOrder α] (value lo hi : α) : α :=
  if value < lo then lo else if value > hi then hi else value

/-! ## Timer periods (rosflight_io.hpp, lines 170-187) -/

/-- `static constexpr long HEARTBEAT_PERIOD = 1;` (seconds), from
rosflight_io.hpp:173. -/
def HEARTBEAT_PERIOD : Nat := 1

/-- `static constexpr long VERSION_PERIOD = 10;` (seconds), from
rosflight_io.hpp:180. -/
def VERSION_PERIOD : Nat := 10

/-- `static constexpr long PARAMETER_PERIOD = 3;` (seconds), from
rosflight_io.hpp:187. -/
def PARAMETER_PERIOD : Nat := 3

end Rosflight

namespace WireCodec

/-! ## Wire codec

Modelled from the spec: the MAVLink serialization layer
(`mavrosflight/mavlink_comm` and the generated message marshalling) is not
in the snapshot.  The spec describes it as a pure codec over a tagged union
of fixed-schema messages: `decode(bytes) -> Result<WireMessage, DecodeError>`,
`encode(WireMessage) -> bytes`, failing with `UnknownKind` for an
unrecognized tag and `Truncated` for a payload shorter than the kind's
fixed schema. -/

/-- Modelled from the spec: the message kinds of the `WireMessage` tagged
union (spec section 3), one per variant the bridge handles. -/
inductive MsgKind : Type
  | heartbeat
  | status
  | commandAck
  | statusText
  | attitude
  | imu
  | rawOutput
  | rcRaw
  | diffPressure
  | barometer
  | magnetometer
  | gnss
  | gnssFull
  | namedInt
  | namedFloat
  | namedCommand
  | range
  | version
  | hardError
  | battery
  | parameterValue
  | parameterRequestAck
  deriving DecidableEq, Repr

/-- Modelled from the spec: the on-wire tag byte of each message kind.
The concrete numbering is the generated MAVLink id table; any injective
assignment into the byte range serves the codec model. -/
def tagOfKind : MsgKind → Nat
  | .heartbeat => 0
  | .status => 1
  | .commandAck => 2
  | .statusText => 3
  | .attitude => 4
  | .imu => 5
  | .rawOutput => 6
  | .rcRaw => 7
  | .diffPressure => 8
  | .barometer => 9
  | .magnetometer => 10
  | .gnss => 11
  | .gnssFull => 12
  | .namedInt => 13
  | .namedFloat => 14
  | .namedCommand => 15
  | .range => 16
  | .version => 17
  | .hardError => 18
  | .battery => 19
  | .parameterValue => 20
  | .parameterRequestAck => 21

/-- Modelled from the spec: the partial inverse of `tagOfKind`; an input tag
outside the table is an unrecognized kind. -/
def kindOfTag : Nat → Option MsgKind
  | 0 => some .heartbeat
  | 1 => some .status
  | 2 => some .commandAck
  | 3 => some .statusText
  | 4 => some .attitude
  | 5 => some .imu
  | 6 => some .rawOutput
  | 7 => some .rcRaw
  | 8 => some .diffPressure
  | 9 => some .barometer
  | 10 => some .magnetometer
  | 11 => some .gnss
  | 12 => some .gnssFull
  | 13 => some .namedInt
  | 14 => some .namedFloat
  | 15 => some .namedCommand
  | 16 => some .range
  | 17 => some .version
  | 18 => some .hardError
  | 19 => some .battery
  | 20 => some .parameterValue
  | 21 => some .parameterRequestAck
  | _ => none

/-- Modelled from the spec: a decoded wire message, a kind tag together with
the variant's field values.  Each field is a machine scalar, represented as
the natural number of its unsigned wire image; a field of byte width `w` is
valid when it is below `2 ^ (8 * w)` (bounded-length strings and enum codes
ride in such scalars as well). -/
structure WireMessage : Type where
  kind : MsgKind
  fields : List Nat
  deriving DecidableEq, Repr

/-- Modelled from the spec: a decode failure — `Truncated` when the payload
is shorter than the kind's fixed schema, `UnknownKind` for an unrecognized
message tag (spec sections 4.1 and 7). -/
inductive DecodeError : Type
  | Truncated
  | UnknownKind
  deriving DecidableEq, Repr

/-- Modelled from the spec: little-endian fixed-width serialization of one
field of byte width `w`. -/
def encodeField : Nat → Nat → List Nat
  | 0, _ => []
  | w + 1, v => v % 256 :: encodeField w (v / 256)

/-- Modelled from the spec: read one little-endian field of byte width `w`
from the byte stream, returning the value and the remaining bytes, or
`none` if the stream is too short. -/
def decodeField : Nat → List Nat → Option (Nat × List Nat)
  | 0, bs => some (0, bs)
  | _ + 1, [] => none
  | w + 1, b :: bs =>
    match decodeField w bs with
    | none => none
    | some (v, rest) => some (b + 256 * v, rest)

/-- Modelled from the spec: serialize a field list against a schema (the
list of byte widths of the kind's fixed fields). -/
def encodeFields : List Nat → List Nat → List Nat
  | [], _ => []
  | _, [] => []
  | w :: ws, v :: vs => encodeField w v ++ encodeFields ws vs

/-- Modelled from the spec: parse a field list against a schema, failing on
a stream shorter than the schema demands. -/
def decodeFields : List Nat → List Nat → Option (List Nat × List Nat)
  | [], bs => some ([], bs)
  | w :: ws, bs =>
    match decodeField w bs with
    | none => none
    | some (v, rest) =>
      match decodeFields ws rest with
      | none => none
      | some (vs, r2) => some (v :: vs, r2)

/-- Modelled from the spec: each field value fits the unsigned range of its
schema width and the field count matches the schema. -/
def validFields : List Nat → List Nat → Bool
  | [], [] => true
  | w :: ws, v :: vs => decide (v < 2 ^ (8 * w)) && validFields ws vs
  | _, _ => false

/-- Modelled from the spec: `encode(WireMessage) -> bytes` — the tag byte
followed by the fixed-schema serialization of the fields.  `schema` gives
each kind's field byte widths (the generated per-message layout, absent
from the snapshot, hence left as a parameter). -/
def encode (schema : MsgKind → List Nat) (m : WireMessage) : List Nat :=
  tagOfKind m.kind :: encodeFields (schema m.kind) m.fields

/-- Modelled from the spec: `decode(bytes) -> Result<WireMessage,
DecodeError>` — read the tag, reject an unknown one, then parse the kind's
fixed schema, rejecting a truncated payload. -/
def decode (schema : MsgKind → List Nat) : List Nat → Except DecodeError WireMessage
  | [] => .error .Truncated
  | t :: rest =>
    match kindOfTag t with
    | none => .error .UnknownKind
    | some k =>
      match decodeFields (schema k) rest with
      | none => .error .Truncated
      | some (vs, _) => .ok ⟨k, vs⟩

theorem kindOfTag_tagOfKind (k : MsgKind) : kindOfTag (tagOfKind k) = some k := by
  cases k <;> rfl

theorem decodeField_encodeField (w v : Nat) (rest : List Nat) (h : v < 2 ^ (8 * w)) :
    decodeField w (encodeField w v ++ rest) = some (v, rest) := by
  induction w generalizing v with
  | zero =>
    interval_cases v
    rfl
  | succ n ih =>
    have hv : v / 256 < 2 ^ (8 * n) := by
      have h256 : (256 : Nat) = 2 ^ 8 := by norm_num
      rw [Nat.div_lt_iff_lt_mul (by norm_num : (0:Nat) < 256)]
      calc v < 2 ^ (8 * (n + 1)) := h
        _ = 2 ^ (8 * n) * 256 := by rw [h256, ← pow_add]; ring_nf
    simp only [encodeField, List.cons_append, List.append_eq, decodeField,
      ih (v / 256) hv]
    rw [Nat.mod_add_div v 256]

theorem decodeFields_encodeFields (ws vs : List Nat) (rest : List Nat)
    (h : validFields ws vs = true) :
    decodeFields ws (encodeFields ws vs ++ rest) = some (vs, rest) := by
  induction ws generalizing vs rest with
  | nil =>
    cases vs with
    | nil => rfl
    | cons v vs => simp [validFields] at h
  | cons w ws ih =>
    cases vs with
    | nil => simp [validFields] at h
    | cons v vs =>
      simp only [validFields, Bool.and_eq_true, decide_eq_true_eq] at h
      simp only [encodeFields, List.append_assoc, decodeFields,
        decodeField_encodeField w v _ h.1, ih vs rest h.2]

/-- C1: for every `WireMessage` variant and every field schema, if all field
values lie within their fields' valid ranges, then decoding the encoding of
the message yields the message back: `decode (encode m) = ok m`. -/
theorem decode_encode_roundtrip (schema : MsgKind → List Nat) (m : WireMessage)
    (h : validFields (schema m.kind) m.fields = true) :
    decode schema (encode schema m) = Except.ok m := by
  have hd : decodeFields (schema m.kind) (encodeFields (schema m.kind) m.fields) =
      some (m.fields, []) := by
    have h0 := decodeFields_encodeFields (schema m.kind) m.fields [] h
    rwa [List.append_nil] at h0
  simp only [encode, decode, kindOfTag_tagOfKind, hd]

/-- Witness for C1: a concrete battery message with two in-range fields under
a concrete schema round-trips. -/
theorem decode_encode_roundtrip_witness :
    validFields ((fun _ => [2, 1]) WireCodec.MsgKind.battery) [65535, 7] = true ∧
      decode (fun _ => [2, 1]) (encode (fun _ => [2, 1]) ⟨.battery, [65535, 7]⟩) =
        Except.ok ⟨.battery, [65535, 7]⟩ :=
  ⟨by decide, decode_encode_roundtrip (fun _ => [2, 1]) ⟨.battery, [65535, 7]⟩ (by decide)⟩

end WireCodec

namespace Scheduler

/-! ## Handshake schedulers

Modelled from the spec: the bodies of `versionTimerCallback`,
`heartbeatTimerCallback`, `handle_version_msg` and `request_version`
(declared in rosflight_io.hpp:528-559 and 329-337) are not in the snapshot.
The spec describes three periodic-retry state machines over a shared
`SyncState` enum; heartbeat stays in `Idle` forever and emits a request on
every tick, version emits while in `Idle`/`AwaitingResponse` and moves to
`Complete` on receipt of a version message. -/

/-- Modelled from the spec: the per-scheduler state enum
`{Idle, AwaitingResponse, Complete, Failed}` (spec section 3). -/
inductive SyncState : Type
  | Idle
  | AwaitingResponse
  | Complete
  | Failed
  deriving DecidableEq, Repr

/-- Modelled from the spec: one version-scheduler tick — while the state is
in `{Idle, AwaitingResponse}`, emit a version-request (the `Bool`) and move
to `AwaitingResponse`; otherwise emit nothing. -/
def versionTick : SyncState → SyncState × Bool
  | .Idle => (.AwaitingResponse, true)
  | .AwaitingResponse => (.AwaitingResponse, true)
  | s => (s, false)

/-- Modelled from the spec: `handle_version_msg` — receiving a version wire
message moves the version scheduler to `Complete` (and cancels future
requests, rosflight_io.hpp:329-337). -/
def versionReceive : SyncState → SyncState := fun _ => .Complete

/-- Modelled from the spec: an event the version scheduler reacts to — a
timer tick or the arrival of a version wire message. -/
inductive VersionEvent : Type
  | tick
  | receiveVersion
  deriving DecidableEq, Repr

/-- Modelled from the spec: one version-scheduler step, returning the new
state and the number of version-request messages emitted (0 or 1). -/
def versionStep (s : SyncState) : VersionEvent → SyncState × Nat
  | .tick =>
    match versionTick s with
    | (s2, e) => (s2, if e then 1 else 0)
  | .receiveVersion => (versionReceive s, 0)

/-- Modelled from the spec: run the version scheduler over an event trace,
returning the final state and the total number of requests emitted. -/
def versionRun (s : SyncState) : List VersionEvent → SyncState × Nat
  | [] => (s, 0)
  | e :: es =>
    match versionStep s e with
    | (s1, n) =>
      match versionRun s1 es with
      | (s2, m) => (s2, n + m)

theorem versionRun_complete (evs : List VersionEvent) :
    versionRun .Complete evs = (.Complete, 0) := by
  induction evs with
  | nil => rfl
  | cons e es ih =>
    cases e <;> simp [versionRun, versionStep, versionTick, versionReceive, ih]

/-- C2: from any scheduler state, receiving one version wire message puts
the version scheduler in `Complete`, and on every subsequent event trace —
however many times the version timer keeps firing — the scheduler stays in
`Complete` and emits zero further version-request messages. -/
theorem version_complete_after_one_message (s : SyncState) (evs : List VersionEvent) :
    versionReceive s = .Complete ∧
      (versionRun (versionReceive s) evs).1 = .Complete ∧
      (versionRun (versionReceive s) evs).2 = 0 := by
  refine ⟨rfl, ?_, ?_⟩ <;> simp [versionReceive, versionRun_complete evs]

/-- Modelled from the spec: one heartbeat-scheduler tick
(`heartbeatTimerCallback`, rosflight_io.hpp:543-549) — in `Idle`, emit a
heartbeat request and stay in `Idle`; the machine never completes. -/
def heartbeatTick : SyncState → SyncState × Bool
  | .Idle => (.Idle, true)
  | s => (s, false)

/-- Modelled from the spec: run the heartbeat scheduler for `n` timer ticks,
returning the final state and the number of heartbeat requests emitted. -/
def heartbeatRun : SyncState → Nat → SyncState × Nat
  | s, 0 => (s, 0)
  | s, n + 1 =>
    match heartbeatTick s with
    | (s1, e) =>
      match heartbeatRun s1 n with
      | (s2, m) => (s2, (if e then 1 else 0) + m)

/-- Modelled from the spec: the number of firings of a periodic timer of
period `P` in the interval `(0, t]` — the timer first fires one full period
after start. -/
def ticksBy (P t : ℚ) : Nat := (⌊t / P⌋).toNat

/-- C4: the heartbeat scheduler stays in `Idle` forever and emits exactly
one request per tick (one per elapsed period); in particular, with the
source's `HEARTBEAT_PERIOD = 1` and no inbound traffic, exactly 3
heartbeat-request messages have been emitted by time 3.5. -/
theorem heartbeat_idle_forever_three_by_3_5 :
    (∀ n, heartbeatRun .Idle n = (.Idle, n)) ∧
      (heartbeatRun .Idle (ticksBy (Rosflight.HEARTBEAT_PERIOD : ℚ) (7 / 2))).2 = 3 := by
  have h : ∀ n, heartbeatRun .Idle n = (.Idle, n) := by
    intro n
    induction n with
    | zero => rfl
    | succ k ih => simp [heartbeatRun, heartbeatTick, ih, Nat.add_comm]
  refine ⟨h, ?_⟩
  have hf : ⌊(7 / 2 : ℚ) / (Rosflight.HEARTBEAT_PERIOD : ℚ)⌋ = 3 := by
    norm_num [Rosflight.HEARTBEAT_PERIOD]
  have ht : ticksBy (Rosflight.HEARTBEAT_PERIOD : ℚ) (7 / 2) = 3 := by
    simp [ticksBy, hf]
  rw [ht, h 3]

end Scheduler

namespace StatusTracker

/-! ## Status/Error Tracker

Modelled from the spec: the body of `handle_status_msg`
(rosflight_io.hpp:195-204) is not in the snapshot.  The spec describes a
tracker holding exactly one previous `StatusSnapshot` (the `prev_status_`
member, rosflight_io.hpp:686), diffing it against each incoming status
message field by field in a fixed order (armed, failsafe, rc-override,
error bits low-to-high, control-mode), emitting a transition event only on
change and overwriting the retained snapshot unconditionally. -/

/-- Modelled from the spec: the tracked status bitfields of a firmware
status message (spec section 3, `StatusSnapshot`).  `errorCode` is the
8-bit error bitfield (`uint8_t` in `check_error_code`,
rosflight_io.hpp:571). -/
structure StatusSnapshot : Type where
  armed : Bool
  failsafe : Bool
  rcOverride : Bool
  errorCode : Nat
  controlMode : Nat
  deriving DecidableEq, Repr

/-- Modelled from the spec: an edge-triggered transition event emitted by
the Status Tracker (spec section 4.5). -/
inductive StatusEvent : Type
  | armedChange (now : Bool)
  | failsafeChange (now : Bool)
  | rcOverrideChange (now : Bool)
  | errorBitChange (bit : Nat) (now : Bool)
  | controlModeChange (mode : Nat)
  deriving DecidableEq, Repr

/-- Modelled from the spec: per-bit comparison of the previous and current
error bitfields, low-to-high (`check_error_code` is called once per named
error code, rosflight_io.hpp:571). -/
def errorBitEvents (prev cur : Nat) : List StatusEvent :=
  (List.range 8).filterMap fun i =>
    if cur.testBit i ≠ prev.testBit i then some (.errorBitChange i (cur.testBit i))
    else none

/-- Modelled from the spec: the edge-triggered events produced by comparing
the previous snapshot against the current one, in the fixed field-check
order armed, failsafe, rc-override, error bits low-to-high, control-mode. -/
def diffEvents (prev cur : StatusSnapshot) : List StatusEvent :=
  (if cur.armed ≠ prev.armed then [.armedChange cur.armed] else []) ++
    (if cur.failsafe ≠ prev.failsafe then [.failsafeChange cur.failsafe] else []) ++
    (if cur.rcOverride ≠ prev.rcOverride then [.rcOverrideChange cur.rcOverride] else []) ++
    errorBitEvents prev.errorCode cur.errorCode ++
    (if cur.controlMode ≠ prev.controlMode then [.controlModeChange cur.controlMode] else [])

/-- Modelled from the spec: `handle_status_msg` — emit the diff events and
overwrite the retained snapshot unconditionally with the new message. -/
def handle_status_msg (prev msg : StatusSnapshot) : List StatusEvent × StatusSnapshot :=
  (diffEvents prev msg, msg)

theorem errorBitEvents_self (c : Nat) : errorBitEvents c c = [] := by
  apply List.filterMap_eq_nil_iff.mpr
  intro i _
  simp

theorem diffEvents_self (s : StatusSnapshot) : diffEvents s s = [] := by
  simp [diffEvents, errorBitEvents_self]

/-- C3: dispatching the same status message twice in a row emits transition
events only on the first dispatch — the second dispatch, whose previous
snapshot is the unconditionally retained copy of the message, emits no
events — and this holds from every tracker state and for every message. -/
theorem status_dispatch_idempotent (prev s : StatusSnapshot) :
    (handle_status_msg (handle_status_msg prev s).2 s).1 = [] ∧
      (handle_status_msg prev s).2 = s :=
  ⟨by simp [handle_status_msg, diffEvents_self], rfl⟩

end StatusTracker

namespace NamedRegistry

/-! ## Named-topic registries

Modelled from the spec: the bodies of `handle_named_value_int_msg`,
`handle_named_value_float_msg` and `handle_named_command_struct_msg`
(rosflight_io.hpp:293-319) are not in the snapshot.  The spec describes a
`NamedTopicRegistry` mapping each value-name string to a lazily created
output channel identity — one registry each for int, float and
command-struct named values (the `named_value_int_pubs_`,
`named_value_float_pubs_` and `named_command_struct_pubs_` maps,
rosflight_io.hpp:644-651) — reusing the channel on every later sighting of
the name and never removing one. -/

/-- Modelled from the spec: one named-topic registry — the association of
value names to channel identities, plus the next fresh identity. -/
structure Registry : Type where
  channels : List (String × Nat)
  nextId : Nat
  deriving DecidableEq, Repr

/-- Modelled from the spec: the channel identity the registry currently
associates with `name`, if any. -/
def findChannel (r : Registry) (name : String) : Option Nat :=
  (r.channels.find? fun e => e.1 == name).map (·.2)

/-- Modelled from the spec: on each named-value message, look the name up;
on first sighting create exactly one new channel identity, else reuse the
existing one.  Returns the updated registry and the channel the event is
emitted on. -/
def lookupOrCreate (r : Registry) (name : String) : Registry × Nat :=
  match (r.channels.find? fun e => e.1 == name) with
  | some e => (r, e.2)
  | none => (⟨r.channels ++ [(name, r.nextId)], r.nextId + 1⟩, r.nextId)

/-- Modelled from the spec: process a sequence of named-value messages
(their embedded names), returning the final registry and the trace of
(name, channel identity) emissions. -/
def runNamed (r : Registry) : List String → Registry × List (String × Nat)
  | [] => (r, [])
  | n :: ns =>
    match lookupOrCreate r n with
    | (r1, c) =>
      match runNamed r1 ns with
      | (r2, tr) => (r2, (n, c) :: tr)

/-- Modelled from the spec: every channel identity recorded in the registry
is older than the next fresh one (holds of every registry the bridge ever
builds, starting from the empty one). -/
def wf (r : Registry) : Prop := ∀ e ∈ r.channels, e.2 < r.nextId

/-- Modelled from the spec: the three per-type registries of the bridge —
int, float and command-struct named values (rosflight_io.hpp:644-651). -/
structure NamedRegistries : Type where
  ints : Registry
  floats : Registry
  commands : Registry
  deriving DecidableEq, Repr

/-- Modelled from the spec: a named-value wire message, carrying the
embedded value name. -/
inductive NamedMsg : Type
  | namedInt (name : String)
  | namedFloat (name : String)
  | namedCommand (name : String)
  deriving DecidableEq, Repr

/-- Modelled from the spec: dispatch a named-value message to the registry
of its type, leaving the other two registries untouched; returns the
channel identity the event is emitted on. -/
def dispatchNamed (rs : NamedRegistries) : NamedMsg → NamedRegistries × Nat
  | .namedInt n =>
    match lookupOrCreate rs.ints n with
    | (r, c) => ({ rs with ints := r }, c)
  | .namedFloat n =>
    match lookupOrCreate rs.floats n with
    | (r, c) => ({ rs with floats := r }, c)
  | .namedCommand n =>
    match lookupOrCreate rs.commands n with
    | (r, c) => ({ rs with commands := r }, c)

theorem lookupOrCreate_channels (r : Registry) (n : String) :
    (lookupOrCreate r n).1.channels = r.channels ∨
      (lookupOrCreate r n).1.channels = r.channels ++ [(n, r.nextId)] := by
  cases hf : (r.channels.find? fun e => e.1 == n) with
  | none => right; simp [lookupOrCreate, hf]
  | some e => left; simp [lookupOrCreate, hf]

theorem findChannel_mono (r : Registry) (m n : String) (c : Nat)
    (h : findChannel r n = some c) :
    findChannel (lookupOrCreate r m).1 n = some c := by
  unfold findChannel at h ⊢
  rcases Option.map_eq_some'.mp h with ⟨e, he, hc⟩
  rcases lookupOrCreate_channels r m with hch | hch <;> rw [hch]
  · rw [he]
    simp [hc]
  · rw [List.find?_append, he]
    simp [hc]

theorem runNamed_cons (r : Registry) (m : String) (ms : List String) :
    runNamed r (m :: ms) =
      ((runNamed (lookupOrCreate r m).1 ms).1,
        (m, (lookupOrCreate r m).2) :: (runNamed (lookupOrCreate r m).1 ms).2) := rfl

theorem findChannel_runNamed_mono (ms : List String) (r : Registry) (n : String) (c : Nat)
    (h : findChannel r n = some c) :
    findChannel (runNamed r ms).1 n = some c := by
  induction ms generalizing r with
  | nil => exact h
  | cons m ms ih =>
    rw [runNamed_cons]
    exact ih _ (findChannel_mono r m n c h)

theorem findChannel_lookupOrCreate_self (r : Registry) (n : String) :
    findChannel (lookupOrCreate r n).1 n = some (lookupOrCreate r n).2 := by
  cases hf : (r.channels.find? fun e => e.1 == n) with
  | some e =>
    simp only [lookupOrCreate, hf, findChannel]
    rfl
  | none =>
    simp only [lookupOrCreate, hf, findChannel]
    rw [List.find?_append, hf]
    simp

theorem trace_findChannel (ms : List String) (r : Registry) :
    ∀ p ∈ (runNamed r ms).2, findChannel (runNamed r ms).1 p.1 = some p.2 := by
  induction ms generalizing r with
  | nil =>
    intro p hp
    simp [runNamed] at hp
  | cons m ms ih =>
    intro p hp
    rw [runNamed_cons] at hp ⊢
    simp only [List.mem_cons] at hp
    rcases hp with rfl | hp
    · exact findChannel_runNamed_mono ms _ m _ (findChannel_lookupOrCreate_self r m)
    · exact ih _ p hp

theorem channels_prefix_lookupOrCreate (r : Registry) (n : String) :
    r.channels <+: (lookupOrCreate r n).1.channels := by
  rcases lookupOrCreate_channels r n with h | h <;> rw [h]
  exact List.prefix_append _ _

theorem channels_prefix_runNamed (ms : List String) (r : Registry) :
    r.channels <+: (runNamed r ms).1.channels := by
  induction ms generalizing r with
  | nil => exact List.prefix_refl _
  | cons m ms ih =>
    rw [runNamed_cons]
    exact (channels_prefix_lookupOrCreate r m).trans (ih _)

theorem wf_lookupOrCreate (r : Registry) (n : String) (h : wf r) :
    wf (lookupOrCreate r n).1 := by
  cases hf : (r.channels.find? fun e => e.1 == n) with
  | some e =>
    simp only [lookupOrCreate, hf]
    exact h
  | none =>
    simp only [lookupOrCreate, hf, wf]
    intro e he
    rcases List.mem_append.mp he with h1 | h1
    · exact Nat.lt_succ_of_lt (h e h1)
    · simp at h1
      rw [h1]
      exact Nat.lt_succ_self _

theorem wf_runNamed (ms : List String) (r : Registry) (h : wf r) :
    wf (runNamed r ms).1 := by
  induction ms generalizing r with
  | nil => exact h
  | cons m ms ih =>
    rw [runNamed_cons]
    exact ih _ (wf_lookupOrCreate r m h)

/-- C9: for every sequence of named-value messages, two messages with the
same name are emitted on the same channel identity; a new name creates
exactly one new, fresh channel identity; no channel is ever removed (the
old registry is a prefix of every later one) and well-formedness is
preserved; and the int, float and command-struct registries evolve
separately (a message of one type leaves the other two registries
untouched). -/
theorem named_channel_invariants (r : Registry) (msgs : List String) (hw : wf r) :
    ((∀ p ∈ (runNamed r msgs).2, ∀ q ∈ (runNamed r msgs).2, p.1 = q.1 → p.2 = q.2) ∧
      (∀ n, findChannel r n = none →
        (lookupOrCreate r n).1.channels = r.channels ++ [(n, r.nextId)] ∧
          ∀ e ∈ r.channels, e.2 ≠ (lookupOrCreate r n).2) ∧
      (r.channels <+: (runNamed r msgs).1.channels) ∧ wf (runNamed r msgs).1) ∧
      (∀ rs : NamedRegistries, ∀ n : String,
        ((dispatchNamed rs (.namedInt n)).1.floats = rs.floats ∧
          (dispatchNamed rs (.namedInt n)).1.commands = rs.commands ∧
          (dispatchNamed rs (.namedInt n)).1.ints = (lookupOrCreate rs.ints n).1) ∧
        ((dispatchNamed rs (.namedFloat n)).1.ints = rs.ints ∧
          (dispatchNamed rs (.namedFloat n)).1.commands = rs.commands ∧
          (dispatchNamed rs (.namedFloat n)).1.floats = (lookupOrCreate rs.floats n).1) ∧
        ((dispatchNamed rs (.namedCommand n)).1.ints = rs.ints ∧
          (dispatchNamed rs (.namedCommand n)).1.floats = rs.floats ∧
          (dispatchNamed rs (.namedCommand n)).1.commands = (lookupOrCreate rs.commands n).1)) := by
  refine ⟨⟨?_, ?_, channels_prefix_runNamed msgs r, wf_runNamed msgs r hw⟩, ?_⟩
  · intro p hp q hq hpq
    have h1 := trace_findChannel msgs r p hp
    have h2 := trace_findChannel msgs r q hq
    rw [hpq, h2] at h1
    exact (Option.some_inj.mp h1).symm
  · intro n hn
    have hf : (r.channels.find? fun e => e.1 == n) = none := by
      unfold findChannel at hn
      exact Option.map_eq_none'.mp hn
    constructor
    · simp [lookupOrCreate, hf]
    · intro e he
      simp only [lookupOrCreate, hf]
      exact Nat.ne_of_lt (hw e he)
  · intro rs n
    refine ⟨⟨?_, ?_, ?_⟩, ⟨?_, ?_, ?_⟩, ⟨?_, ?_, ?_⟩⟩ <;> rfl

/-- Witness for C9: from the empty (well-formed) registry, processing the
message names "alt", "alt", "volt" keeps the original channel list as a
prefix of the final one. -/
theorem named_channel_invariants_witness :
    wf ⟨[], 0⟩ ∧
      (⟨[], 0⟩ : Registry).channels <+:
        (runNamed ⟨[], 0⟩ ["alt", "alt", "volt"]).1.channels :=
  ⟨fun e he => absurd he (List.not_mem_nil e),
    (named_channel_invariants ⟨[], 0⟩ ["alt", "alt", "volt"]
      (fun e he => absurd he (List.not_mem_nil e))).1.2.2.1⟩

end NamedRegistry

namespace ParamTable

/-! ## Parameter Table

Modelled from the spec: the MAVROSflight parameter manager (behind
`on_param_value_updated`, `paramGetSrvCallback`, `paramSetSrvCallback`,
rosflight_io.hpp:148-159 and 393-416) is not in the snapshot.  The spec
describes a table of parameters keyed by unique name, each with a value, a
wire-encoding kind tag and a dirty flag; `request_set` marks dirty and
returns the wire message without touching the stored value, a firmware echo
(`set_from_firmware`) is what updates the value and clears dirty, and a
name re-declared with a mismatched kind is a `ParameterKindConflict` that
leaves the table unmodified.  Parameter values are doubles in the source;
the claims at issue concern which field is written when, not float
rounding, so values are embedded as rationals. -/

/-- Modelled from the spec: the `{int, float}` wire-encoding kind tag of a
parameter (spec section 3). -/
inductive ParamKind : Type
  | int
  | float
  deriving DecidableEq, Repr

/-- Modelled from the spec: one table entry — unique name, firmware's
last-known value, wire kind, and the dirty flag. -/
structure Parameter : Type where
  name : String
  value : ℚ
  kind : ParamKind
  dirty : Bool
  deriving DecidableEq, Repr

/-- Modelled from the spec: the local error for a name re-declared with a
mismatched kind (spec section 7). -/
inductive ParamError : Type
  | ParameterKindConflict
  deriving DecidableEq, Repr

/-- Modelled from the spec: the encode-ready parameter-set wire message
`request_set` hands back to be sent to the firmware. -/
structure SetMsg : Type where
  name : String
  value : ℚ
  kind : ParamKind
  deriving DecidableEq, Repr

/-- Modelled from the spec: the Parameter Table, an association of
parameters keyed by their (unique) names. -/
abbrev Table : Type := List Parameter

/-- Modelled from the spec: `get(name) -> Option<Parameter>`. -/
def get (tbl : Table) (name : String) : Option Parameter :=
  tbl.find? fun p => p.name == name

/-- Modelled from the spec: `set_from_firmware(name, value, kind)` —
insert if absent (first sighting defines the kind), else update the value
in place; either way the entry ends clean, the value now matching the
firmware's authoritative report. -/
def set_from_firmware (tbl : Table) (name : String) (value : ℚ) (kind : ParamKind) : Table :=
  if (tbl.find? fun p => p.name == name).isSome then
    tbl.map fun p =>
      if p.name == name then { p with value := value, dirty := false } else p
  else tbl ++ [⟨name, value, kind, false⟩]

/-- Modelled from the spec: `request_set(name, value)` — mark the entry
dirty and return the wire message to send, without updating the stored
value (the table reflects the firmware's last-known value until the echo
arrives); a name already present under a different kind is a
`ParameterKindConflict` and the table is left unmodified.  A previously
unset name is entered dirty with a placeholder stored value of 0, no
firmware-confirmed value existing yet. -/
def request_set (tbl : Table) (name : String) (value : ℚ) (kind : ParamKind) :
    Table × Except ParamError SetMsg :=
  match tbl.find? fun p => p.name == name with
  | some p =>
    if p.kind = kind then
      (tbl.map fun q => if q.name == name then { q with dirty := true } else q,
        .ok ⟨name, value, kind⟩)
    else (tbl, .error .ParameterKindConflict)
  | none => (tbl ++ [⟨name, 0, kind, true⟩], .ok ⟨name, value, kind⟩)

/-- Modelled from the spec: the table-mutating operations reachable state
is built from — firmware echoes and application set requests. -/
inductive ParamOp : Type
  | fromFirmware (name : String) (value : ℚ) (kind : ParamKind)
  | requestSet (name : String) (value : ℚ) (kind : ParamKind)
  deriving DecidableEq, Repr

/-- Modelled from the spec: apply one table operation. -/
def applyOp (tbl : Table) : ParamOp → Table
  | .fromFirmware n v k => set_from_firmware tbl n v k
  | .requestSet n v k => (request_set tbl n v k).1

/-- Modelled from the spec: apply a sequence of table operations. -/
def applyOps (tbl : Table) : List ParamOp → Table
  | [] => tbl
  | o :: os => applyOps (applyOp tbl o) os

theorem find?_map_name (l : List Parameter) (n : String) (f : Parameter → Parameter)
    (hf : ∀ p, (f p).name = p.name) :
    ((l.map f).find? fun p => p.name == n) = (l.find? fun p => p.name == n).map f := by
  have hp : ((fun p => p.name == n) ∘ f) = fun p => p.name == n := by
    funext p
    simp [Function.comp, hf]
  rw [List.find?_map, hp]

theorem get_map_name (l : List Parameter) (n : String) (f : Parameter → Parameter)
    (hf : ∀ p, (f p).name = p.name) :
    get (l.map f) n = (get l n).map f :=
  find?_map_name l n f hf

theorem get_append_of_some (l : List Parameter) (extra : List Parameter) (n : String)
    (p : Parameter) (h : get l n = some p) : get (l ++ extra) n = some p := by
  unfold get at h ⊢
  rw [List.find?_append, h]
  rfl

/-- C6: a `request_set` on a name already present leaves the stored value
field of that parameter — and of every other parameter — unchanged: a `get`
performed immediately after the request still returns the value the table
held before it, not the requested one. -/
theorem request_set_preserves_values (tbl : Table) (nm : String) (v : ℚ)
    (k : ParamKind) (h : (get tbl nm).isSome = true) :
    ∀ n, (get (request_set tbl nm v k).1 n).map Parameter.value =
      (get tbl n).map Parameter.value := by
  intro n
  cases hf : tbl.find? fun p => p.name == nm with
  | none =>
    unfold get at h
    rw [hf] at h
    simp at h
  | some p =>
    by_cases hk : p.kind = k
    · have hn : ∀ q : Parameter,
          ((if q.name == nm then { q with dirty := true } else q) : Parameter).name =
            q.name := by
        intro q
        cases hq : q.name == nm <;> simp [hq]
      simp only [request_set, hf, if_pos hk]
      rw [get_map_name _ _ _ hn]
      cases hg : get tbl n with
      | none => rfl
      | some q =>
        have hv : ((if q.name == nm then { q with dirty := true } else q) :
            Parameter).value = q.value := by
          split <;> rfl
        rw [Option.map_some', Option.map_some', hv]
        rfl
    · simp [request_set, hf, if_neg hk]

/-- Witness for C6: with "KP_ROLL" present at value 1, requesting value 1/2
leaves every stored value as it was. -/
theorem request_set_preserves_values_witness :
    (get [⟨"KP_ROLL", 1, .float, false⟩] "KP_ROLL").isSome = true ∧
      ∀ n, (get (request_set [⟨"KP_ROLL", 1, .float, false⟩] "KP_ROLL" (1 / 2) .float).1
            n).map Parameter.value =
          (get [⟨"KP_ROLL", 1, .float, false⟩] n).map Parameter.value :=
  ⟨rfl, request_set_preserves_values [⟨"KP_ROLL", 1, .float, false⟩] "KP_ROLL"
    (1 / 2) .float rfl⟩

/-- C7: with "KP_ROLL" unset, `request_set("KP_ROLL", 0.5)` marks the
parameter dirty and returns the encode-ready set-message; after the
firmware echo carrying value 0.5 is processed by `set_from_firmware`, the
dirty flag is cleared and `get("KP_ROLL")` returns 0.5. -/
theorem kp_roll_scenario (tbl : Table) (h : get tbl "KP_ROLL" = none) :
    (request_set tbl "KP_ROLL" (1 / 2) .float).2 =
        Except.ok ⟨"KP_ROLL", 1 / 2, .float⟩ ∧
      (get (request_set tbl "KP_ROLL" (1 / 2) .float).1 "KP_ROLL").map Parameter.dirty =
        some true ∧
      get (set_from_firmware (request_set tbl "KP_ROLL" (1 / 2) .float).1 "KP_ROLL"
          (1 / 2) .float) "KP_ROLL" = some ⟨"KP_ROLL", 1 / 2, .float, false⟩ := by
  have hf : (tbl.find? fun p => p.name == "KP_ROLL") = none := h
  have h1 : get (tbl ++ [⟨"KP_ROLL", 0, .float, true⟩]) "KP_ROLL" =
      some ⟨"KP_ROLL", 0, .float, true⟩ := by
    unfold get
    rw [List.find?_append, hf]
    rfl
  have hr1 : (request_set tbl "KP_ROLL" (1 / 2) .float).1 =
      tbl ++ [⟨"KP_ROLL", 0, .float, true⟩] := by
    simp [request_set, hf]
  refine ⟨by simp [request_set, hf], ?_, ?_⟩
  · rw [hr1, h1]
    rfl
  · rw [hr1]
    have hfind : ((tbl ++ [(⟨"KP_ROLL", 0, .float, true⟩ : Parameter)]).find?
        fun p => p.name == "KP_ROLL") = some ⟨"KP_ROLL", 0, .float, true⟩ := h1
    have hn : ∀ q : Parameter,
        ((if q.name == "KP_ROLL" then { q with value := 1 / 2, dirty := false } else q) :
          Parameter).name = q.name := by
      intro q
      cases hq : q.name == "KP_ROLL" <;> simp [hq]
    unfold set_from_firmware
    rw [hfind]
    simp only [Option.isSome_some, if_true]
    rw [get_map_name _ _ _ hn, h1]
    rfl

/-- Witness for C7: the scenario run from the empty table. -/
theorem kp_roll_scenario_witness :
    get ([] : Table) "KP_ROLL" = none ∧
      get (set_from_firmware (request_set ([] : Table) "KP_ROLL" (1 / 2) .float).1
          "KP_ROLL" (1 / 2) .float) "KP_ROLL" =
        some ⟨"KP_ROLL", 1 / 2, .float, false⟩ :=
  ⟨rfl, (kp_roll_scenario [] rfl).2.2⟩

theorem get_kind_map (tbl : Table) (n : String) (p : Parameter)
    (f : Parameter → Parameter)
    (hf : ∀ q, (f q).name = q.name) (hk : ∀ q, (f q).kind = q.kind)
    (h : get tbl n = some p) :
    ∃ q, get (tbl.map f) n = some q ∧ q.kind = p.kind := by
  refine ⟨f p, ?_, hk p⟩
  rw [get_map_name tbl n f hf, h]
  rfl

theorem get_kind_applyOp (tbl : Table) (o : ParamOp) (n : String) (p : Parameter)
    (h : get tbl n = some p) :
    ∃ q, get (applyOp tbl o) n = some q ∧ q.kind = p.kind := by
  cases o with
  | fromFirmware m v k =>
    simp only [applyOp, set_from_firmware]
    cases hf : (tbl.find? fun r => r.name == m) with
    | none =>
      simp only [hf, Option.isSome_none, Bool.false_eq_true, if_false]
      exact ⟨p, get_append_of_some tbl _ n p h, rfl⟩
    | some r =>
      simp only [hf, Option.isSome_some, if_true]
      refine get_kind_map tbl n p _ ?_ ?_ h <;> intro q <;>
        cases hq : q.name == m <;> simp [hq]
  | requestSet m v k =>
    simp only [applyOp, request_set]
    cases hf : (tbl.find? fun r => r.name == m) with
    | none =>
      simp only [hf]
      exact ⟨p, get_append_of_some tbl _ n p h, rfl⟩
    | some r =>
      simp only [hf]
      by_cases hk : r.kind = k
      · rw [if_pos hk]
        refine get_kind_map tbl n p _ ?_ ?_ h <;> intro q <;>
          cases hq : q.name == m <;> simp [hq]
      · rw [if_neg hk]
        exact ⟨p, h, rfl⟩

theorem kind_stable_applyOps (ops : List ParamOp) (tbl : Table) (n : String)
    (p : Parameter) (h : get tbl n = some p) :
    ∃ q, get (applyOps tbl ops) n = some q ∧ q.kind = p.kind := by
  induction ops generalizing tbl p with
  | nil => exact ⟨p, h, rfl⟩
  | cons o os ih =>
    obtain ⟨q, hq, hk⟩ := get_kind_applyOp tbl o n p h
    obtain ⟨q2, hq2, hk2⟩ := ih (applyOp tbl o) q hq
    exact ⟨q2, hq2, hk2.trans hk⟩

/-- C8: a set request re-declaring a present name with a different kind
returns `ParameterKindConflict` and leaves the entire table unmodified;
and under any sequence of further table operations a parameter's kind
never changes after first creation. -/
theorem kind_conflict_rejected (tbl : Table) (n : String) (p : Parameter) (v : ℚ)
    (k : ParamKind) (h : get tbl n = some p) (hk : k ≠ p.kind) :
    request_set tbl n v k = (tbl, .error .ParameterKindConflict) ∧
      ∀ ops : List ParamOp, ∃ q, get (applyOps tbl ops) n = some q ∧ q.kind = p.kind := by
  constructor
  · have hf : (tbl.find? fun r => r.name == n) = some p := h
    simp only [request_set, hf]
    rw [if_neg (Ne.symm hk)]
  · intro ops
    exact kind_stable_applyOps ops tbl n p h

/-- Witness for C8: re-declaring float-kinded "KP_ROLL" as an int is
rejected and the table is returned unmodified. -/
theorem kind_conflict_rejected_witness :
    get [⟨"KP_ROLL", 1 / 2, .float, false⟩] "KP_ROLL" =
        some ⟨"KP_ROLL", 1 / 2, .float, false⟩ ∧
      ParamKind.int ≠ ParamKind.float ∧
      request_set [⟨"KP_ROLL", 1 / 2, .float, false⟩] "KP_ROLL" 1 .int =
        ([⟨"KP_ROLL", 1 / 2, .float, false⟩], .error .ParameterKindConflict) :=
  ⟨rfl, by decide,
    (kind_conflict_rejected [⟨"KP_ROLL", 1 / 2, .float, false⟩] "KP_ROLL"
      ⟨"KP_ROLL", 1 / 2, .float, false⟩ 1 .int rfl (by decide)).1⟩

end ParamTable

namespace Dispatcher

open Scheduler StatusTracker NamedRegistry

/-! ## Message Dispatcher

Modelled from the spec: the body of `handle_mavlink_message`
(rosflight_io.hpp:125-134) is not in the snapshot.  Its doc comment and the
spec describe a router that calls the per-kind handler for each decoded
inbound message and silently ignores kinds with no registered handler —
forward compatibility with firmware sending kinds this bridge does not yet
translate; ignoring is not an error and never blocks or stalls subsequent
dispatch. -/

/-- Modelled from the spec: the shared bridge state the dispatcher's
handlers mutate — the version scheduler state, the retained status
snapshot and the named-topic registries. -/
structure DispatchState : Type where
  version : SyncState
  prevStatus : StatusSnapshot
  registries : NamedRegistries
  deriving DecidableEq, Repr

/-- Modelled from the spec: an inbound decoded wire message as routed by
the dispatcher — a kind with a registered handler carrying its payload, or
a kind tag with no registered handler. -/
inductive WireIn : Type
  | statusMsg (s : StatusSnapshot)
  | versionMsg
  | named (m : NamedMsg)
  | unhandled (tag : Nat)
  deriving DecidableEq, Repr

/-- Modelled from the spec: an externally visible output of one dispatch
step (a translated event emitted to the bus). -/
inductive BridgeOutput : Type
  | statusEvent (e : StatusEvent)
  | statusPublished (s : StatusSnapshot)
  | versionPublished
  | namedPublished (channel : Nat)
  deriving DecidableEq, Repr

/-- Modelled from the spec: `handle_mavlink_message` — route the message to
its handler; a kind with no registered handler is ignored, with no state
change, no output and no error. -/
def handle_mavlink_message (st : DispatchState) : WireIn → DispatchState × List BridgeOutput
  | .statusMsg s =>
    match handle_status_msg st.prevStatus s with
    | (evs, snap) =>
      ({ st with prevStatus := snap }, evs.map .statusEvent ++ [.statusPublished s])
  | .versionMsg =>
    ({ st with version := versionReceive st.version }, [.versionPublished])
  | .named m =>
    match dispatchNamed st.registries m with
    | (rs, c) => ({ st with registries := rs }, [.namedPublished c])
  | .unhandled _ => (st, [])

/-- Modelled from the spec: dispatch an inbound message sequence,
collecting the outputs in order. -/
def dispatchRun (st : DispatchState) : List WireIn → DispatchState × List BridgeOutput
  | [] => (st, [])
  | m :: ms =>
    match handle_mavlink_message st m with
    | (s1, out) =>
      match dispatchRun s1 ms with
      | (s2, outs) => (s2, out ++ outs)

/-- C5: a message whose kind has no registered handler is ignored without
an error — the dispatcher's state after it equals its state before it and
it produces no output — and dispatch of every subsequent message proceeds
unchanged: the run over the remaining messages is exactly the run that
would have happened without the unknown-kind message. -/
theorem unknown_kind_ignored (st : DispatchState) (tag : Nat) (rest : List WireIn) :
    handle_mavlink_message st (.unhandled tag) = (st, []) ∧
      dispatchRun st (.unhandled tag :: rest) = dispatchRun st rest := by
  refine ⟨rfl, ?_⟩
  show (match dispatchRun st rest with
    | (s2, outs) => (s2, ([] : List BridgeOutput) ++ outs)) = dispatchRun st rest
  cases h : dispatchRun st rest with
  | mk s2 outs => simp

end Dispatcher

namespace Rosflight

theorem saturate_of_lt {α : Type} [LinearOrder α] {v lo hi : α} (hv : v < lo) :
    saturate v lo hi = lo := by
  simp [saturate, hv]

theorem saturate_of_gt {α : Type} [LinearOrder α] {v lo hi : α} (h1 : ¬v < lo)
    (hv : hi < v) : saturate v lo hi = hi := by
  simp [saturate, h1, hv]

theorem saturate_of_mem {α : Type} [LinearOrder α] {v lo hi : α} (h1 : lo ≤ v)
    (h2 : v ≤ hi) : saturate v lo hi = v := by
  simp [saturate, not_lt.mpr h1, not_lt.mpr h2]

/-- C10: under the precondition `lo ≤ hi`, `saturate v lo hi` lies in
`[lo, hi]`; it equals `v` whenever `lo ≤ v ≤ hi`, equals `lo` whenever
`v < lo`, equals `hi` whenever `v > hi`, and is idempotent. -/
theorem saturate_spec {α : Type} [LinearOrder α] (v lo hi : α) (h : lo ≤ hi) :
    lo ≤ saturate v lo hi ∧ saturate v lo hi ≤ hi ∧
      (lo ≤ v → v ≤ hi → saturate v lo hi = v) ∧
      (v < lo → saturate v lo hi = lo) ∧
      (hi < v → saturate v lo hi = hi) ∧
      saturate (saturate v lo hi) lo hi = saturate v lo hi := by
  rcases lt_or_le v lo with hv | hv
  · rw [saturate_of_lt hv]
    exact ⟨le_refl lo, h,
      fun h1 _ => absurd hv (not_lt.mpr h1),
      fun _ => rfl,
      fun hg => absurd (hg.trans hv) (not_lt.mpr h),
      saturate_of_mem (le_refl lo) h⟩
  · rcases le_or_lt v hi with hv2 | hv2
    · rw [saturate_of_mem hv hv2]
      exact ⟨hv, hv2, fun _ _ => rfl,
        fun hl => absurd hl (not_lt.mpr hv),
        fun hg => absurd hg (not_lt.mpr hv2),
        saturate_of_mem hv hv2⟩
    · rw [saturate_of_gt (not_lt.mpr hv) hv2]
      exact ⟨h, le_refl hi,
        fun _ h2 => absurd hv2 (not_lt.mpr h2),
        fun hl => absurd hl (not_lt.mpr hv),
        fun _ => rfl,
        saturate_of_mem h (le_refl hi)⟩

/-- Witness for C10: saturating 5 into the integer range `[0, 3]` stays
within the upper bound. -/
theorem saturate_spec_witness :
    (0 : Int) ≤ 3 ∧ saturate (5 : Int) 0 3 ≤ 3 :=
  ⟨by decide, (saturate_spec (5 : Int) 0 3 (by decide)).2.1⟩

end Rosflight
